import Mathlib

/-!
Verification of the diff-parsing engine and review-orchestration layer.

The parser (`app/services/diff_parser.py`) is embedded as a pure state
machine over lists of characters; the orchestrator
(`app/orchestrator/review_orchestrator.py`) as pure list-processing
functions.  Analyzer invocations, which may fail, are modelled with
`Except`; wall-clock timing fields are fixed to `0` (time is not part of
any claim).
-/

namespace PRReview

abbrev Chars := List Char

/-- Python `str.strip()` whitespace predicate (ASCII subset). -/
def isPySpace (c : Char) : Bool :=
  c = ' ' || c = '\t' || c = '\n' || c = '\r' || c = '\x0b' || c = '\x0c'

/-- Python `str.strip()`: drop whitespace from both ends. -/
def pyStrip (s : Chars) : Chars :=
  ((s.dropWhile isPySpace).reverse.dropWhile isPySpace).reverse

/-- Python `str.split('\n')`: `""` yields `[""]`, trailing separator yields a
trailing empty piece. -/
def splitOnNewline : Chars → List Chars
  | [] => [[]]
  | c :: rest =>
    if c = '\n' then [] :: splitOnNewline rest
    else
      match splitOnNewline rest with
      | [] => [[c]]
      | l :: ls => (c :: l) :: ls

/-- Does `s` start with `p`? -/
def listStartsWith : Chars → Chars → Bool
  | _, [] => true
  | [], _ :: _ => false
  | c :: cs, p :: ps => c = p && listStartsWith cs ps

/-- Does `s` end with `suf`? (Python `str.endswith`.) -/
def listEndsWith (s suf : Chars) : Bool :=
  listStartsWith s.reverse suf.reverse

/-- If `pat` is a literal leading pattern of `s`, return the remainder. -/
def dropPre? : Chars → Chars → Option Chars
  | [], s => some s
  | _ :: _, [] => none
  | p :: ps, c :: cs => if c = p then dropPre? ps cs else none

/-- Maximal leading run of ASCII digits (regex `\d+`, maximal munch). -/
def takeDigits : Chars → Chars × Chars
  | [] => ([], [])
  | c :: cs =>
    if c.isDigit then
      let (d, r) := takeDigits cs
      (c :: d, r)
    else ([], c :: cs)

/-- Numeric value of a decimal digit string (Python `int`). -/
def digitsVal (ds : Chars) : Nat :=
  ds.foldl (fun n c => n * 10 + (c.toNat - 48)) 0

/- Literal fragments of the parser's regex patterns, as character lists. -/

def tagFileHeader : Chars := ['d','i','f','f',' ','-','-','g','i','t',' ','a','/']
def tagNewFileMode : Chars := ['n','e','w',' ','f','i','l','e',' ','m','o','d','e',' ']
def tagDeletedFileMode : Chars :=
  ['d','e','l','e','t','e','d',' ','f','i','l','e',' ','m','o','d','e',' ']
def tagRenameFrom : Chars := ['r','e','n','a','m','e',' ','f','r','o','m',' ']
def tagRenameTo : Chars := ['r','e','n','a','m','e',' ','t','o',' ']
def tagHunk : Chars := ['@','@',' ','-']
def tagSpacePlus : Chars := [' ','+']
def tagSpaceAtAt : Chars := [' ','@','@']
def tagSpaceB : Chars := [' ','b','/']

/-- Split `s` as `pre ++ " b/" ++ post` with `post` nonempty, preferring the
rightmost such occurrence — the backtracking behaviour of the greedy group in
`^diff --git a/(.+) b/(.+)$`. -/
def lastSplitB : Chars → Option (Chars × Chars)
  | [] => none
  | c :: rest =>
    match lastSplitB rest with
    | some (pre, post) => some (c :: pre, post)
    | none =>
      match dropPre? tagSpaceB (c :: rest) with
      | some post => if post = [] then none else some ([], post)
      | none => none

/-- `^diff --git a/(.+) b/(.+)$` — returns (old path, new path). -/
def matchFileHeader (line : Chars) : Option (Chars × Chars) :=
  match dropPre? tagFileHeader line with
  | none => none
  | some rest =>
    match lastSplitB rest with
    | none => none
    | some (pre, post) => if pre = [] then none else some (pre, post)

/-- `^new file mode \d+$`. -/
def matchNewFileMode (line : Chars) : Bool :=
  match dropPre? tagNewFileMode line with
  | none => false
  | some r => !r.isEmpty && r.all Char.isDigit

/-- `^deleted file mode \d+$`. -/
def matchDeletedFileMode (line : Chars) : Bool :=
  match dropPre? tagDeletedFileMode line with
  | none => false
  | some r => !r.isEmpty && r.all Char.isDigit

/-- `^rename from (.+)$`. -/
def matchRenameFrom (line : Chars) : Option Chars :=
  match dropPre? tagRenameFrom line with
  | none => none
  | some r => if r = [] then none else some r

/-- `^rename to (.+)$`. -/
def matchRenameTo (line : Chars) : Option Chars :=
  match dropPre? tagRenameTo line with
  | none => none
  | some r => if r = [] then none else some r

/-- `^@@ -(\d+)(?:,(\d+))? \+(\d+)(?:,(\d+))? @@(.*)$` — returns
(old start, old count group, new start, new count group, trailing text). -/
def matchHunkHeader (line : Chars) :
    Option (Nat × Option Nat × Nat × Option Nat × Chars) :=
  match dropPre? tagHunk line with
  | none => none
  | some r1 =>
    let (d1, r2) := takeDigits r1
    if d1 = [] then none else
    let oldc : Option Nat × Chars :=
      match r2 with
      | ',' :: r2' =>
        let (d2, r3) := takeDigits r2'
        if d2 = [] then (none, r2) else (some (digitsVal d2), r3)
      | _ => (none, r2)
    match dropPre? tagSpacePlus oldc.2 with
    | none => none
    | some r4 =>
      let (d3, r5) := takeDigits r4
      if d3 = [] then none else
      let newc : Option Nat × Chars :=
        match r5 with
        | ',' :: r5' =>
          let (d4, r6) := takeDigits r5'
          if d4 = [] then (none, r5) else (some (digitsVal d4), r6)
        | _ => (none, r5)
      match dropPre? tagSpaceAtAt newc.2 with
      | none => none
      | some r7 => some (digitsVal d1, oldc.1, digitsVal d3, newc.1, r7)

/-- `DiffParser.LANGUAGE_MAP`, in source (insertion) order. -/
def LANGUAGE_MAP : List (String × String) :=
  [(".py", "python"), (".js", "javascript"), (".ts", "typescript"),
   (".tsx", "typescript"), (".jsx", "javascript"), (".java", "java"),
   (".go", "go"), (".rs", "rust"), (".rb", "ruby"), (".php", "php"),
   (".c", "c"), (".cpp", "cpp"), (".h", "c"), (".hpp", "cpp"),
   (".cs", "csharp"), (".swift", "swift"), (".kt", "kotlin"),
   (".scala", "scala"), (".r", "r"), (".sql", "sql"), (".sh", "bash"),
   (".bash", "bash"), (".zsh", "zsh"), (".yml", "yaml"), (".yaml", "yaml"),
   (".json", "json"), (".xml", "xml"), (".html", "html"), (".css", "css"),
   (".scss", "scss"), (".sass", "sass"), (".less", "less"),
   (".md", "markdown"), (".rst", "restructuredtext"), (".vue", "vue"),
   (".svelte", "svelte")]

/-- `DiffParser.detect_language`: first suffix (case-insensitive) match wins. -/
def detect_language (file_path : Chars) : Option Chars :=
  if file_path = [] then none
  else
    (LANGUAGE_MAP.find?
      (fun e => listEndsWith (file_path.map Char.toLower) e.1.data)).map
      (fun e => e.2.data)

/-- `ChangedLine.change_type` values. -/
inductive ChangeType
  | addition
  | deletion
  | context
deriving DecidableEq, Repr

/-- `diff_parser.ChangedLine`. -/
structure ChangedLine where
  line_number : Nat
  content : Chars
  change_type : ChangeType
  original_line_number : Option Nat := none
deriving DecidableEq, Repr

/-- `diff_parser.DiffHunk`. -/
structure DiffHunk where
  old_start : Nat
  old_count : Nat
  new_start : Nat
  new_count : Nat
  header : Chars
  lines : List ChangedLine := []
deriving DecidableEq, Repr

/-- `diff_parser.FileDiff`. -/
structure FileDiff where
  file_path : Chars
  old_path : Option Chars := none
  new_path : Option Chars := none
  is_new_file : Bool := false
  is_deleted_file : Bool := false
  is_renamed : Bool := false
  language : Option Chars := none
  hunks : List DiffHunk := []
  additions : Nat := 0
  deletions : Nat := 0
deriving DecidableEq, Repr

/-- Lines of the open hunk already classified addition-or-context. -/
def countAC (ls : List ChangedLine) : Nat :=
  (ls.filter (fun l =>
    l.change_type = ChangeType.addition ∨ l.change_type = ChangeType.context)).length

/-- Lines of the open hunk already classified deletion-or-context. -/
def countDC (ls : List ChangedLine) : Nat :=
  (ls.filter (fun l =>
    l.change_type = ChangeType.deletion ∨ l.change_type = ChangeType.context)).length

/-- The scan state of `DiffParser.parse`: sealed files, the open file and the
open hunk. -/
structure ParseState where
  fileDiffs : List FileDiff
  currentFile : Option FileDiff
  currentHunk : Option DiffHunk
deriving DecidableEq, Repr

def ParseState.start : ParseState := ⟨[], none, none⟩

/-- Seal the open hunk into the open file, then the open file into the result
list (the flush done on a new file header and at end of input). -/
def closeFile (cf : Option FileDiff) (ch : Option DiffHunk)
    (fds : List FileDiff) : List FileDiff :=
  match cf, ch with
  | some f, some h => fds ++ [{ f with hunks := f.hunks ++ [h] }]
  | some f, none => fds ++ [f]
  | none, _ => fds

/-- Seal the open hunk into the open file (the flush done on a new hunk
header). -/
def closeHunk (cf : FileDiff) : Option DiffHunk → FileDiff
  | some h => { cf with hunks := cf.hunks ++ [h] }
  | none => cf

/-- Hunk-header and content-line handling of `DiffParser.parse` (reached only
with an open file, after the file-header and metadata checks have failed). -/
def handleHunkOrContent (st : ParseState) (cf : FileDiff) (line : Chars)
    (isLast : Bool) : ParseState :=
  match matchHunkHeader line with
  | some (os, oc, ns, nc, hdr) =>
    let h : DiffHunk :=
      { old_start := os, old_count := oc.getD 1,
        new_start := ns, new_count := nc.getD 1,
        header := pyStrip hdr, lines := [] }
    { st with
      currentFile := some (closeHunk cf st.currentHunk),
      currentHunk := some h }
  | none =>
    match st.currentHunk with
    | none => st
    | some h =>
      if listStartsWith line ['+'] && !listStartsWith line ['+','+','+'] then
        let n := h.new_start + countAC h.lines
        { st with
          currentHunk := some { h with lines := h.lines ++
            [{ line_number := n, content := line.drop 1,
               change_type := ChangeType.addition }] },
          currentFile := some { cf with additions := cf.additions + 1 } }
      else if listStartsWith line ['-'] && !listStartsWith line ['-','-','-'] then
        let n := h.old_start + countDC h.lines
        { st with
          currentHunk := some { h with lines := h.lines ++
            [{ line_number := n, content := line.drop 1,
               change_type := ChangeType.deletion,
               original_line_number := some n }] },
          currentFile := some { cf with deletions := cf.deletions + 1 } }
      else if listStartsWith line [' '] || (line.isEmpty && !isLast) then
        let n := h.new_start + countAC h.lines
        let o := h.old_start + countDC h.lines
        { st with
          currentHunk := some { h with lines := h.lines ++
            [{ line_number := n,
               content := if listStartsWith line [' '] then line.drop 1 else line,
               change_type := ChangeType.context,
               original_line_number := some o }] } }
      else st

/-- One iteration of the scan loop of `DiffParser.parse`; `isLast` says whether
this is the final element of the line split. -/
def processLine (st : ParseState) (line : Chars) (isLast : Bool) : ParseState :=
  match matchFileHeader line with
  | some (oldp, newp) =>
    let fresh : FileDiff :=
      { file_path := newp, old_path := some oldp, new_path := some newp,
        language := detect_language newp }
    { fileDiffs := closeFile st.currentFile st.currentHunk st.fileDiffs,
      currentFile := some fresh,
      currentHunk := none }
  | none =>
    match st.currentFile with
    | none => st
    | some cf =>
      if matchNewFileMode line then
        { st with currentFile := some { cf with is_new_file := true } }
      else if matchDeletedFileMode line then
        { st with currentFile := some { cf with is_deleted_file := true } }
      else
        match matchRenameFrom line with
        | some p =>
          let cf' := { cf with old_path := some p, is_renamed := true }
          { st with currentFile := some cf' }
        | none =>
          match matchRenameTo line with
          | some p =>
            let cf' := { cf with new_path := some p, file_path := p }
            { st with currentFile := some cf' }
          | none => handleHunkOrContent st cf line isLast

def parseLines : ParseState → List Chars → ParseState
  | st, [] => st
  | st, l :: rest => parseLines (processLine st l rest.isEmpty) rest

/-- `DiffParser.parse`. -/
def parse (diff_text : Chars) : List FileDiff :=
  if pyStrip diff_text = [] then []
  else
    let st := parseLines ParseState.start (splitOnNewline diff_text)
    closeFile st.currentFile st.currentHunk st.fileDiffs

/-!  The orchestration layer (`review_orchestrator.py`).  A finding is the
dictionary an analyzer reports; keys read with `.get` and a default are
`Option`-valued. -/

structure Finding where
  file_path : String := ""
  line_number : Option Nat := none
  category : Option String := none
  severity : Option String := none
  title : String := ""
  description : String := ""
  agent_name : Option String := none
deriving DecidableEq, Repr

/-- `finding.get("severity", "info")`. -/
def sevOf (f : Finding) : String := f.severity.getD "info"

/-- `finding.get("category", "code_quality")`. -/
def catOf (f : Finding) : String := f.category.getD "code_quality"

/-- The fixed severity rank dictionary used by `review_diff`. -/
def severity_order : List (String × Nat) :=
  [("critical", 0), ("high", 1), ("medium", 2), ("low", 3), ("info", 4)]

/-- `severity_order.get(x.get("severity", "info"), 4)`. -/
def rankOf (f : Finding) : Nat := (severity_order.lookup (sevOf f)).getD 4

/-- `all_findings.sort(key=...)` — Python's sort is stable, embedded as a
stable merge sort on the severity rank. -/
def sortFindings (l : List Finding) : List Finding :=
  l.mergeSort (fun a b => rankOf a ≤ rankOf b)

structure SeverityCounts where
  critical : Nat
  high : Nat
  medium : Nat
  low : Nat
  info : Nat
deriving DecidableEq, Repr

structure CategoryCounts where
  security : Nat
  performance : Nat
  logic : Nat
  code_quality : Nat
  documentation : Nat
deriving DecidableEq, Repr

/-- The per-severity tallies of `_generate_summary` (only the five known keys
are ever incremented). -/
def severityCounts (l : List Finding) : SeverityCounts :=
  { critical := (l.filter (fun f => sevOf f = "critical")).length,
    high := (l.filter (fun f => sevOf f = "high")).length,
    medium := (l.filter (fun f => sevOf f = "medium")).length,
    low := (l.filter (fun f => sevOf f = "low")).length,
    info := (l.filter (fun f => sevOf f = "info")).length }

/-- The per-category tallies of `_generate_summary`. -/
def categoryCounts (l : List Finding) : CategoryCounts :=
  { security := (l.filter (fun f => catOf f = "security")).length,
    performance := (l.filter (fun f => catOf f = "performance")).length,
    logic := (l.filter (fun f => catOf f = "logic")).length,
    code_quality := (l.filter (fun f => catOf f = "code_quality")).length,
    documentation := (l.filter (fun f => catOf f = "documentation")).length }

structure Summary where
  total_issues : Nat
  severity_counts : SeverityCounts
  category_counts : CategoryCounts
  overall_rating : String
deriving DecidableEq, Repr

/-- `ReviewOrchestrator._generate_summary`. -/
def generate_summary (findings : List Finding) : Summary :=
  let sc := severityCounts findings
  let cc := categoryCounts findings
  let overall :=
    if sc.critical > 0 then "needs_work"
    else if sc.high > 2 then "needs_work"
    else if sc.high > 0 ∨ sc.medium > 5 then "changes_requested"
    else if sc.medium > 0 then "comment"
    else "approve"
  { total_issues := findings.length, severity_counts := sc,
    category_counts := cc, overall_rating := overall }

/-- The dictionary `BaseReviewAgent.run` / `_run_agent` return; elapsed time
is not modelled and fixed to `0`. -/
structure AgentResult where
  agent_name : String
  findings : List Finding
  execution_time_seconds : Nat := 0
  error : Option String := none
deriving DecidableEq, Repr

/-- `_prepare_code_context`'s immutable per-file view. -/
structure CodeContext where
  file_path : Chars
  language : Option Chars
  is_new_file : Bool
  is_deleted_file : Bool
  additions : List (Nat × Chars)
  diff_content : Chars
deriving DecidableEq, Repr

/-- An analyzer: `run` is its (possibly raising) `run` method. -/
structure Agent where
  name : String
  run : CodeContext → Except String AgentResult

/-- `str(n)` for the reconstructed hunk header text. -/
def natChars (n : Nat) : Chars := Nat.toDigits 10 n

def hunkHeaderText (h : DiffHunk) : Chars :=
  "@@ -".data ++ natChars h.old_start ++ [','] ++ natChars h.old_count ++
  " +".data ++ natChars h.new_start ++ [','] ++ natChars h.new_count ++
  " @@ ".data ++ h.header

def lineMarker : ChangeType → Char
  | ChangeType.addition => '+'
  | ChangeType.deletion => '-'
  | ChangeType.context => ' '

def hunkText (h : DiffHunk) : List Chars :=
  hunkHeaderText h :: h.lines.map (fun l => lineMarker l.change_type :: l.content)

def joinNL (ls : List Chars) : Chars := List.intercalate ['\n'] ls

/-- `ReviewOrchestrator._prepare_code_context`. -/
def prepare_code_context (fd : FileDiff) : CodeContext :=
  { file_path := fd.file_path, language := fd.language,
    is_new_file := fd.is_new_file, is_deleted_file := fd.is_deleted_file,
    additions := (fd.hunks.flatMap (·.lines)).filterMap (fun l =>
      if l.change_type = ChangeType.addition then some (l.line_number, l.content)
      else none),
    diff_content := joinNL (fd.hunks.flatMap hunkText) }

/-- `ReviewOrchestrator._run_agent`: a raising invocation is converted into an
error-carrying `AgentResult` with no findings. -/
def run_agent (a : Agent) (ctx : CodeContext) : AgentResult :=
  match a.run ctx with
  | Except.ok r => r
  | Except.error e =>
    { agent_name := a.name, findings := [], execution_time_seconds := 0,
      error := some e }

/-- `BaseReviewAgent.run`: wraps an `analyze` capability, capturing a failure
into the result's `error` field instead of propagating it. -/
def baseAgentRun (name : String)
    (analyze : CodeContext → Except String (List Finding))
    (ctx : CodeContext) : Except String AgentResult :=
  Except.ok (match analyze ctx with
    | Except.ok fs =>
      { agent_name := name, findings := fs, execution_time_seconds := 0,
        error := none }
    | Except.error e =>
      { agent_name := name, findings := [], execution_time_seconds := 0,
        error := some e })

/-- The per-file fan-out of `review_diff`: deleted files and files with no
added lines are skipped; otherwise every registered agent runs on the file's
context (given in registration order; the parallel mode permutes this list,
see the dispatch-equivalence theorem). -/
def fileResults (agents : List Agent) (fd : FileDiff) : List AgentResult :=
  if fd.is_deleted_file then []
  else
    let ctx := prepare_code_context fd
    if ctx.additions = [] then []
    else agents.map (fun a => run_agent a ctx)

/-- Sequential dispatch (`parallel=False`): files in order, agents in
registration order. -/
def seqAgentResults (agents : List Agent) (fds : List FileDiff) :
    List AgentResult :=
  fds.flatMap (fileResults agents)

/-- Merge every result's findings, in collection order. -/
def collectFindings (rs : List AgentResult) : List Finding :=
  rs.flatMap (fun r => r.findings)

def seqAllFindings (agents : List Agent) (fds : List FileDiff) : List Finding :=
  collectFindings (seqAgentResults agents fds)

/-- The dictionary `review_diff` returns (keys absent on the short-circuit
path keep their defaults). -/
structure ReviewResult where
  success : Bool
  message : Option String := none
  files_reviewed : Nat
  total_additions : Nat := 0
  total_deletions : Nat := 0
  findings : List Finding
  agent_results : List AgentResult := []
  summary : Option Summary := none
deriving Repr

/-- `ReviewOrchestrator.review_diff` in sequential mode; the parallel mode
differs only in the per-file collection order of `agent_results`. -/
def review_diff (agents : List Agent) (diff_content : Chars) : ReviewResult :=
  let file_diffs := parse diff_content
  if file_diffs = [] then
    { success := true, message := some "No changes to review",
      files_reviewed := 0, findings := [] }
  else
    let agent_results := seqAgentResults agents file_diffs
    let all_findings := sortFindings (collectFindings agent_results)
    { success := true,
      files_reviewed := (file_diffs.filter (fun f => !f.is_deleted_file)).length,
      total_additions := (file_diffs.map (fun f => f.additions)).sum,
      total_deletions := (file_diffs.map (fun f => f.deletions)).sum,
      findings := all_findings,
      agent_results := agent_results,
      summary := some (generate_summary all_findings) }

/-!  Counting definitions used to state the parser invariants. -/

def hunkAddCount (h : DiffHunk) : Nat :=
  (h.lines.filter (fun l => l.change_type = ChangeType.addition)).length

def hunkDelCount (h : DiffHunk) : Nat :=
  (h.lines.filter (fun l => l.change_type = ChangeType.deletion)).length

def fdAddCount (fd : FileDiff) : Nat := (fd.hunks.map hunkAddCount).sum

def fdDelCount (fd : FileDiff) : Nat := (fd.hunks.map hunkDelCount).sum

def optAdd : Option DiffHunk → Nat
  | none => 0
  | some h => hunkAddCount h

def optDel : Option DiffHunk → Nat
  | none => 0
  | some h => hunkDelCount h

/-- The per-file counters agree with the classified lines. -/
def GoodFD (fd : FileDiff) : Prop :=
  fd.additions = fdAddCount fd ∧ fd.deletions = fdDelCount fd

/-- Scan invariant: sealed files are good; the open file's counters equal its
sealed hunks' lines plus the open hunk's lines. -/
def GoodState (st : ParseState) : Prop :=
  (∀ fd ∈ st.fileDiffs, GoodFD fd) ∧
  ∀ cf, st.currentFile = some cf →
    cf.additions = fdAddCount cf + optAdd st.currentHunk ∧
    cf.deletions = fdDelCount cf + optDel st.currentHunk

/-- A finding carrying only a severity. -/
def mkSev (s : String) : Finding := { severity := some s }

/-- A small demonstration diff used in witnesses. -/
def demoDiffC3 : Chars := "diff --git a/a b/b\n@@ -1 +1 @@\n+x\n-y".data

/-- The single FileDiff that `parse demoDiffC3` produces. -/
def demoFDC3 : FileDiff :=
  { file_path := "b".data, old_path := some "a".data, new_path := some "b".data,
    hunks := [{ old_start := 1, old_count := 1, new_start := 1, new_count := 1,
                header := [],
                lines := [{ line_number := 1, content := ['x'],
                            change_type := ChangeType.addition,
                            original_line_number := none },
                          { line_number := 1, content := ['y'],
                            change_type := ChangeType.deletion,
                            original_line_number := some 1 }] }],
    additions := 1, deletions := 1 }

/-- A deleted-file diff used in witnesses. -/
def demoDeletedDiff : Chars :=
  "diff --git a/x.py b/x.py\ndeleted file mode 100644\n@@ -1 +0,0 @@\n-gone".data

/-- The single FileDiff that `parse demoDeletedDiff` produces. -/
def demoFDdel : FileDiff :=
  { file_path := "x.py".data, old_path := some "x.py".data,
    new_path := some "x.py".data, is_deleted_file := true,
    language := some "python".data,
    hunks := [{ old_start := 1, old_count := 1, new_start := 0, new_count := 0,
                header := [],
                lines := [{ line_number := 1, content := "gone".data,
                            change_type := ChangeType.deletion,
                            original_line_number := some 1 }] }],
    additions := 0, deletions := 1 }

def demoFindingA : Finding := { severity := some "high", title := "A" }

def demoFindingB : Finding := { severity := some "low", title := "B" }

/-- A well-behaved analyzer reporting one high finding. -/
def agentA : Agent :=
  { name := "A",
    run := fun _ => Except.ok
      { agent_name := "A", findings := [demoFindingA] } }

/-- A well-behaved analyzer reporting one low finding. -/
def agentB : Agent :=
  { name := "B",
    run := fun _ => Except.ok
      { agent_name := "B", findings := [demoFindingB] } }

/-- An analyzer whose invocation always raises. -/
def badAgent : Agent :=
  { name := "bad", run := fun _ => Except.error "boom" }

def ctxC10 : CodeContext := prepare_code_context demoFDC3

def resA : AgentResult := run_agent agentA ctxC10

def resB : AgentResult := run_agent agentB ctxC10

end PRReview

/-!  ## Theorems -/

namespace PRReview

theorem tagFileHeader_eq : tagFileHeader = "diff --git a/".data := by decide

theorem tagNewFileMode_eq : tagNewFileMode = "new file mode ".data := by decide

theorem tagDeletedFileMode_eq : tagDeletedFileMode = "deleted file mode ".data := by
  decide

theorem tagRenameFrom_eq : tagRenameFrom = "rename from ".data := by decide

theorem tagRenameTo_eq : tagRenameTo = "rename to ".data := by decide

theorem tagHunk_eq : tagHunk = "@@ -".data := by decide

theorem dropPre?_cons_ne {p c : Char} (ps cs : Chars) (h : c ≠ p) :
    dropPre? (p :: ps) (c :: cs) = none := by
  simp [dropPre?, h]

theorem dropPre?_self_append (ps s : Chars) : dropPre? ps (ps ++ s) = some s := by
  induction ps with
  | nil => rfl
  | cons p ps ih => simp [dropPre?, ih]

theorem matchFileHeader_cons_ne (c : Char) (cs : Chars) (h : c ≠ 'd') :
    matchFileHeader (c :: cs) = none := by
  simp [matchFileHeader, tagFileHeader, dropPre?, h]

theorem matchNewFileMode_cons_ne (c : Char) (cs : Chars) (h : c ≠ 'n') :
    matchNewFileMode (c :: cs) = false := by
  simp [matchNewFileMode, tagNewFileMode, dropPre?, h]

theorem matchDeletedFileMode_cons_ne (c : Char) (cs : Chars) (h : c ≠ 'd') :
    matchDeletedFileMode (c :: cs) = false := by
  simp [matchDeletedFileMode, tagDeletedFileMode, dropPre?, h]

theorem matchRenameFrom_cons_ne (c : Char) (cs : Chars) (h : c ≠ 'r') :
    matchRenameFrom (c :: cs) = none := by
  simp [matchRenameFrom, tagRenameFrom, dropPre?, h]

theorem matchRenameTo_cons_ne (c : Char) (cs : Chars) (h : c ≠ 'r') :
    matchRenameTo (c :: cs) = none := by
  simp [matchRenameTo, tagRenameTo, dropPre?, h]

theorem matchHunkHeader_cons_ne (c : Char) (cs : Chars) (h : c ≠ '@') :
    matchHunkHeader (c :: cs) = none := by
  simp [matchHunkHeader, tagHunk, dropPre?, h]

theorem matchFileHeader_cons_r (cs : Chars) : matchFileHeader ('r' :: cs) = none :=
  matchFileHeader_cons_ne 'r' cs (by decide)

theorem matchNewFileMode_cons_r (cs : Chars) :
    matchNewFileMode ('r' :: cs) = false :=
  matchNewFileMode_cons_ne 'r' cs (by decide)

theorem matchDeletedFileMode_cons_r (cs : Chars) :
    matchDeletedFileMode ('r' :: cs) = false :=
  matchDeletedFileMode_cons_ne 'r' cs (by decide)

theorem matchFileHeader_cons_at (cs : Chars) : matchFileHeader ('@' :: cs) = none :=
  matchFileHeader_cons_ne '@' cs (by decide)

theorem matchNewFileMode_cons_at (cs : Chars) :
    matchNewFileMode ('@' :: cs) = false :=
  matchNewFileMode_cons_ne '@' cs (by decide)

theorem matchDeletedFileMode_cons_at (cs : Chars) :
    matchDeletedFileMode ('@' :: cs) = false :=
  matchDeletedFileMode_cons_ne '@' cs (by decide)

theorem matchRenameFrom_cons_at (cs : Chars) :
    matchRenameFrom ('@' :: cs) = none :=
  matchRenameFrom_cons_ne '@' cs (by decide)

theorem matchRenameTo_cons_at (cs : Chars) :
    matchRenameTo ('@' :: cs) = none :=
  matchRenameTo_cons_ne '@' cs (by decide)

theorem matchFileHeader_nil : matchFileHeader [] = none := by decide

theorem matchNewFileMode_nil : matchNewFileMode [] = false := by decide

theorem matchDeletedFileMode_nil : matchDeletedFileMode [] = false := by decide

theorem matchRenameFrom_nil : matchRenameFrom [] = none := by decide

theorem matchRenameTo_nil : matchRenameTo [] = none := by decide

theorem matchHunkHeader_nil : matchHunkHeader [] = none := by decide

theorem overall_rating_eq (l : List Finding) :
    (generate_summary l).overall_rating =
      (if (severityCounts l).critical > 0 then "needs_work"
       else if (severityCounts l).high > 2 then "needs_work"
       else if (severityCounts l).high > 0 ∨ (severityCounts l).medium > 5 then
         "changes_requested"
       else if (severityCounts l).medium > 0 then "comment"
       else "approve") := rfl

/-- C1: the overall rating follows the fixed decision table, evaluated in
order with first match winning — any critical finding gives "needs_work";
otherwise more than 2 high gives "needs_work"; otherwise at least 1 high or
more than 5 medium gives "changes_requested"; otherwise at least 1 medium
gives "comment"; otherwise "approve" — together with the concrete cases:
zero findings, one medium, one high, three high, one critical regardless of
the rest of the list, and six medium. -/
theorem claim_C1 (findings : List Finding) :
    ((severityCounts findings).critical > 0 →
      (generate_summary findings).overall_rating = "needs_work") ∧
    ((severityCounts findings).critical = 0 → (severityCounts findings).high > 2 →
      (generate_summary findings).overall_rating = "needs_work") ∧
    ((severityCounts findings).critical = 0 → (severityCounts findings).high ≤ 2 →
      ((severityCounts findings).high ≥ 1 ∨ (severityCounts findings).medium > 5) →
      (generate_summary findings).overall_rating = "changes_requested") ∧
    ((severityCounts findings).critical = 0 → (severityCounts findings).high = 0 →
      (severityCounts findings).medium ≤ 5 → (severityCounts findings).medium ≥ 1 →
      (generate_summary findings).overall_rating = "comment") ∧
    ((severityCounts findings).critical = 0 → (severityCounts findings).high = 0 →
      (severityCounts findings).medium = 0 →
      (generate_summary findings).overall_rating = "approve") ∧
    (generate_summary []).overall_rating = "approve" ∧
    (generate_summary [mkSev "medium"]).overall_rating = "comment" ∧
    (generate_summary [mkSev "high"]).overall_rating = "changes_requested" ∧
    (generate_summary [mkSev "high", mkSev "high", mkSev "high"]).overall_rating =
      "needs_work" ∧
    (∀ l : List Finding,
      (generate_summary (mkSev "critical" :: l)).overall_rating = "needs_work") ∧
    (generate_summary (List.replicate 6 (mkSev "medium"))).overall_rating =
      "changes_requested" := by
  refine ⟨?_, ?_, ?_, ?_, ?_, by decide, by decide, by decide, by decide, ?_, by decide⟩
  · intro h1
    rw [overall_rating_eq, if_pos h1]
  · intro h1 h2
    rw [overall_rating_eq, if_neg (by omega), if_pos h2]
  · intro h1 h2 h3
    rw [overall_rating_eq, if_neg (by omega), if_neg (by omega),
      if_pos (by omega)]
  · intro h1 h2 h3 h4
    rw [overall_rating_eq, if_neg (by omega), if_neg (by omega),
      if_neg (by omega), if_pos (by omega)]
  · intro h1 h2 h3
    rw [overall_rating_eq, if_neg (by omega), if_neg (by omega),
      if_neg (by omega), if_neg (by omega)]
  · intro l
    have hc : (severityCounts (mkSev "critical" :: l)).critical > 0 := by
      simp [severityCounts, sevOf, mkSev, List.filter_cons]
    rw [overall_rating_eq, if_pos hc]

/-- C1 witness: one critical finding rates "needs_work". -/
theorem claim_C1_witness :
    (severityCounts [mkSev "critical"]).critical > 0 ∧
    (generate_summary [mkSev "critical"]).overall_rating = "needs_work" :=
  ⟨by decide, (claim_C1 [mkSev "critical"]).1 (by decide)⟩

/-- C7: the findings returned by the merge step are the input list stably
sorted by severity rank critical(0) < high(1) < medium(2) < low(3) < info(4),
missing or unknown severities ranking 4: the output is a permutation of the
input, it is sorted by rank, and within each rank the original collection
order is preserved. -/
theorem claim_C7 (l : List Finding) :
    (sortFindings l).Perm l ∧
    List.Pairwise (fun a b => rankOf a ≤ rankOf b) (sortFindings l) ∧
    ∀ k : Nat, (sortFindings l).filter (fun f => rankOf f = k) =
      l.filter (fun f => rankOf f = k) := by
  have htrans : ∀ a b c : Finding,
      (decide (rankOf a ≤ rankOf b)) = true →
      (decide (rankOf b ≤ rankOf c)) = true →
      (decide (rankOf a ≤ rankOf c)) = true := by
    intro a b c hab hbc
    simp only [decide_eq_true_eq] at *
    omega
  have htot : ∀ a b : Finding,
      ((decide (rankOf a ≤ rankOf b)) || (decide (rankOf b ≤ rankOf a))) = true := by
    intro a b
    simp only [Bool.or_eq_true, decide_eq_true_eq]
    omega
  refine ⟨List.mergeSort_perm l _, ?_, ?_⟩
  · exact (List.sorted_mergeSort htrans htot l).imp (by
      intro a b hab
      simpa using hab)
  · intro k
    have hmemk : ∀ f ∈ l.filter (fun f => rankOf f = k), rankOf f = k := by
      intro f hf
      simpa using (List.mem_filter.mp hf).2
    have hpair : List.Pairwise (fun a b : Finding =>
        (decide (rankOf a ≤ rankOf b)) = true)
        (l.filter (fun f => rankOf f = k)) := by
      apply List.pairwise_of_forall_mem_list
      intro a ha b hb
      simp [hmemk a ha, hmemk b hb]
    have hsub2 : List.Sublist (l.filter (fun f => rankOf f = k)) (sortFindings l) :=
      List.sublist_mergeSort htrans htot hpair (List.filter_sublist l)
    have hself : (l.filter (fun f => rankOf f = k)).filter
        (fun f => rankOf f = k) = l.filter (fun f => rankOf f = k) := by
      apply List.filter_eq_self.mpr
      intro a ha
      simpa using hmemk a ha
    have hsub3 : List.Sublist (l.filter (fun f => rankOf f = k))
        ((sortFindings l).filter (fun f => rankOf f = k)) := by
      rw [← hself]
      exact hsub2.filter _
    have hperm : ((sortFindings l).filter (fun f => rankOf f = k)).Perm
        (l.filter (fun f => rankOf f = k)) :=
      (List.mergeSort_perm l _).filter _
    exact (hsub3.eq_of_length hperm.length_eq.symm).symm

/-- C2: inside an open hunk, an addition line gets new-side position
new-start + count of already-appended addition-or-context lines; a deletion
line gets old-side position old-start + count of already-appended
deletion-or-context lines; a context line gets both positions by those same
rules; and the leading marker character is stripped from the stored
content. -/
theorem claim_C2 (fds : List FileDiff) (cf : FileDiff) (h : DiffHunk)
    (r : Chars) (isLast : Bool) :
    (listStartsWith ('+' :: r) ['+', '+', '+'] = false →
      processLine ⟨fds, some cf, some h⟩ ('+' :: r) isLast =
        ⟨fds, some { cf with additions := cf.additions + 1 },
          some { h with lines := h.lines ++
            [{ line_number := h.new_start + countAC h.lines, content := r,
               change_type := ChangeType.addition,
               original_line_number := none }] }⟩) ∧
    (listStartsWith ('-' :: r) ['-', '-', '-'] = false →
      processLine ⟨fds, some cf, some h⟩ ('-' :: r) isLast =
        ⟨fds, some { cf with deletions := cf.deletions + 1 },
          some { h with lines := h.lines ++
            [{ line_number := h.old_start + countDC h.lines, content := r,
               change_type := ChangeType.deletion,
               original_line_number := some (h.old_start + countDC h.lines) }] }⟩) ∧
    (processLine ⟨fds, some cf, some h⟩ (' ' :: r) isLast =
      ⟨fds, some cf,
        some { h with lines := h.lines ++
          [{ line_number := h.new_start + countAC h.lines, content := r,
             change_type := ChangeType.context,
             original_line_number := some (h.old_start + countDC h.lines) }] }⟩) ∧
    (isLast = false →
      processLine ⟨fds, some cf, some h⟩ [] isLast =
        ⟨fds, some cf,
          some { h with lines := h.lines ++
            [{ line_number := h.new_start + countAC h.lines, content := [],
               change_type := ChangeType.context,
               original_line_number := some (h.old_start + countDC h.lines) }] }⟩) := by
  refine ⟨?_, ?_, ?_, ?_⟩
  · intro hp
    have hp' : listStartsWith r ['+', '+'] = false := by
      simpa [listStartsWith] using hp
    simp [processLine, handleHunkOrContent,
      matchFileHeader_cons_ne '+' r (by decide),
      matchNewFileMode_cons_ne '+' r (by decide),
      matchDeletedFileMode_cons_ne '+' r (by decide),
      matchRenameFrom_cons_ne '+' r (by decide),
      matchRenameTo_cons_ne '+' r (by decide),
      matchHunkHeader_cons_ne '+' r (by decide), listStartsWith, hp']
  · intro hp
    have hp' : listStartsWith r ['-', '-'] = false := by
      simpa [listStartsWith] using hp
    simp [processLine, handleHunkOrContent,
      matchFileHeader_cons_ne '-' r (by decide),
      matchNewFileMode_cons_ne '-' r (by decide),
      matchDeletedFileMode_cons_ne '-' r (by decide),
      matchRenameFrom_cons_ne '-' r (by decide),
      matchRenameTo_cons_ne '-' r (by decide),
      matchHunkHeader_cons_ne '-' r (by decide), listStartsWith, hp']
  · simp [processLine, handleHunkOrContent,
      matchFileHeader_cons_ne ' ' r (by decide),
      matchNewFileMode_cons_ne ' ' r (by decide),
      matchDeletedFileMode_cons_ne ' ' r (by decide),
      matchRenameFrom_cons_ne ' ' r (by decide),
      matchRenameTo_cons_ne ' ' r (by decide),
      matchHunkHeader_cons_ne ' ' r (by decide), listStartsWith]
  · intro hl
    simp [processLine, handleHunkOrContent, matchFileHeader_nil,
      matchNewFileMode_nil, matchDeletedFileMode_nil, matchRenameFrom_nil,
      matchRenameTo_nil, matchHunkHeader_nil, listStartsWith, hl]

/-- C2 witness: an addition line appended to an open hunk starting at
new-start 3 with no prior lines is numbered 3 and stored without its
marker. -/
theorem claim_C2_witness :
    listStartsWith ('+' :: "ab".data) ['+', '+', '+'] = false ∧
    processLine ⟨[], some { file_path := "f".data },
        some { old_start := 1, old_count := 2, new_start := 3, new_count := 4,
               header := [], lines := [] }⟩ ('+' :: "ab".data) true =
      ⟨[], some { file_path := "f".data, additions := 1 },
        some { old_start := 1, old_count := 2, new_start := 3, new_count := 4,
               header := [],
               lines := [{ line_number := 3, content := "ab".data,
                           change_type := ChangeType.addition,
                           original_line_number := none }] }⟩ :=
  ⟨by decide,
    (claim_C2 [] { file_path := "f".data }
      { old_start := 1, old_count := 2, new_start := 3, new_count := 4,
        header := [], lines := [] } "ab".data true).1 (by decide)⟩

/-- C4: `parse` is total and pure by construction (it is a Lean function);
lines appearing before any file header leave the scan state untouched and
are silently ignored; an empty or whitespace-only input yields the empty
result sequence rather than an error. -/
theorem claim_C4 :
    (∀ text : Chars, pyStrip text = [] → parse text = []) ∧
    (∀ junk rest : List Chars, (∀ l ∈ junk, matchFileHeader l = none) →
      parseLines ParseState.start (junk ++ rest) =
        parseLines ParseState.start rest) := by
  constructor
  · intro text h
    simp [parse, h]
  · intro junk rest hj
    induction junk with
    | nil => rfl
    | cons l ls ih =>
      have hl : matchFileHeader l = none := hj l (by simp)
      have hstep : ∀ b, processLine ParseState.start l b = ParseState.start := by
        intro b
        simp [processLine, hl, ParseState.start]
      show parseLines (processLine ParseState.start l _) (ls ++ rest) = _
      rw [hstep]
      exact ih (fun x hx => hj x (by simp [hx]))

/-- C4 witness: whitespace-only input parses to nothing, and a junk line
before the first header does not change the scan. -/
theorem claim_C4_witness :
    parse "  \n\t ".data = [] ∧
    parseLines ParseState.start ("junk".data :: ["diff --git a/a b/b".data]) =
      parseLines ParseState.start ["diff --git a/a b/b".data] :=
  ⟨claim_C4.1 _ (by decide), claim_C4.2 ["junk".data] _ (by decide)⟩

/-- C5 counterexample: a diff whose only metadata line is `rename to c.py`
produces a FileChange whose new-path and path are updated but whose
is-renamed flag is still false — contradicting the claim that a
"rename to" line sets is-renamed. -/
theorem claim_C5_counterexample :
    parse "diff --git a/a.py b/b.py\nrename to c.py".data =
      [{ file_path := "c.py".data, old_path := some "a.py".data,
         new_path := some "c.py".data, is_new_file := false,
         is_deleted_file := false, is_renamed := false,
         language := some "python".data, hunks := [], additions := 0,
         deletions := 0 }] := by decide

/-- C5 (amended): while a FileChange is open, a "rename from p" line sets its
old-path to p and sets is-renamed; a "rename to p" line sets its
new-path and path to p but leaves is-renamed unchanged (only "rename from"
sets it); the diff with `rename from a.py` then `rename to b.py` and no
`+++`/`---` lines still yields one FileChange with old-path "a.py", path
"b.py", and is-renamed = true. -/
theorem claim_C5 (fds : List FileDiff) (cf : FileDiff) (ch : Option DiffHunk)
    (isLast : Bool) (p : Chars) :
    (p ≠ [] →
      processLine ⟨fds, some cf, ch⟩ (tagRenameFrom ++ p) isLast =
        ⟨fds, some { cf with old_path := some p, is_renamed := true }, ch⟩) ∧
    (p ≠ [] →
      processLine ⟨fds, some cf, ch⟩ (tagRenameTo ++ p) isLast =
        ⟨fds, some { cf with new_path := some p, file_path := p }, ch⟩) ∧
    parse "diff --git a/x.py b/x.py\nrename from a.py\nrename to b.py".data =
      [{ file_path := "b.py".data, old_path := some "a.py".data,
         new_path := some "b.py".data, is_renamed := true,
         language := some "python".data }] := by
  refine ⟨?_, ?_, by decide⟩
  · intro hp
    have hfrom : matchRenameFrom
        ('r' :: 'e' :: 'n' :: 'a' :: 'm' :: 'e' :: ' ' :: 'f' :: 'r' :: 'o' ::
          'm' :: ' ' :: p) = some p := by
      simp [matchRenameFrom, tagRenameFrom, dropPre?, hp]
    simp [processLine, tagRenameFrom, matchFileHeader_cons_r,
      matchNewFileMode_cons_r, matchDeletedFileMode_cons_r, hfrom]
  · intro hp
    have hfrom : matchRenameFrom
        ('r' :: 'e' :: 'n' :: 'a' :: 'm' :: 'e' :: ' ' :: 't' :: 'o' :: ' ' ::
          p) = none := by
      simp [matchRenameFrom, tagRenameFrom, dropPre?]
    have hto : matchRenameTo
        ('r' :: 'e' :: 'n' :: 'a' :: 'm' :: 'e' :: ' ' :: 't' :: 'o' :: ' ' ::
          p) = some p := by
      simp [matchRenameTo, tagRenameTo, dropPre?, hp]
    simp [processLine, tagRenameTo, matchFileHeader_cons_r,
      matchNewFileMode_cons_r, matchDeletedFileMode_cons_r, hfrom, hto]

/-- Maximal munch stops at the space following a digit run. -/
theorem takeDigits_append_space (ds r : Chars) (h : ds.all Char.isDigit = true) :
    takeDigits (ds ++ ' ' :: r) = (ds, ' ' :: r) := by
  induction ds with
  | nil => simp [takeDigits, show (' '.isDigit) = false from rfl]
  | cons c cs ih =>
    simp only [List.all_cons, Bool.and_eq_true] at h
    simp [takeDigits, h.1, ih h.2]

/-- Maximal munch stops at the comma following a digit run. -/
theorem takeDigits_append_comma (ds r : Chars) (h : ds.all Char.isDigit = true) :
    takeDigits (ds ++ ',' :: r) = (ds, ',' :: r) := by
  induction ds with
  | nil => simp [takeDigits, show (','.isDigit) = false from rfl]
  | cons c cs ih =>
    simp only [List.all_cons, Bool.and_eq_true] at h
    simp [takeDigits, h.1, ih h.2]

/-- A hunk header with both counts omitted matches with `none` count
groups. -/
theorem matchHunkHeader_omitted (ds1 ds2 rest : Chars)
    (h1 : ds1 ≠ []) (h2 : ds2 ≠ [])
    (hd1 : ds1.all Char.isDigit = true) (hd2 : ds2.all Char.isDigit = true) :
    matchHunkHeader (tagHunk ++ ds1 ++ tagSpacePlus ++ ds2 ++ tagSpaceAtAt ++ rest)
      = some (digitsVal ds1, none, digitsVal ds2, none, rest) := by
  simp [matchHunkHeader, tagSpacePlus, tagSpaceAtAt, dropPre?_self_append,
    dropPre?, takeDigits_append_space ds1, takeDigits_append_space ds2,
    hd1, hd2, h1, h2]

/-- A hunk header with the old-side count present and the new-side count
omitted matches with a `some` old group and a `none` new group. -/
theorem matchHunkHeader_oldCount (ds1 ds2 ds3 rest : Chars)
    (h1 : ds1 ≠ []) (h2 : ds2 ≠ []) (h3 : ds3 ≠ [])
    (hd1 : ds1.all Char.isDigit = true) (hd2 : ds2.all Char.isDigit = true)
    (hd3 : ds3.all Char.isDigit = true) :
    matchHunkHeader
        (tagHunk ++ ds1 ++ [','] ++ ds2 ++ tagSpacePlus ++ ds3 ++ tagSpaceAtAt ++
          rest) =
      some (digitsVal ds1, some (digitsVal ds2), digitsVal ds3, none, rest) := by
  simp [matchHunkHeader, tagSpacePlus, tagSpaceAtAt, dropPre?_self_append,
    dropPre?, takeDigits_append_comma ds1, takeDigits_append_space ds2,
    takeDigits_append_space ds3, hd1, hd2, hd3, h1, h2, h3]

/-- A hunk header with the old-side count omitted and the new-side count
present matches with a `none` old group and a `some` new group. -/
theorem matchHunkHeader_newCount (ds1 ds2 ds3 rest : Chars)
    (h1 : ds1 ≠ []) (h2 : ds2 ≠ []) (h3 : ds3 ≠ [])
    (hd1 : ds1.all Char.isDigit = true) (hd2 : ds2.all Char.isDigit = true)
    (hd3 : ds3.all Char.isDigit = true) :
    matchHunkHeader
        (tagHunk ++ ds1 ++ tagSpacePlus ++ ds2 ++ [','] ++ ds3 ++ tagSpaceAtAt ++
          rest) =
      some (digitsVal ds1, none, digitsVal ds2, some (digitsVal ds3), rest) := by
  simp [matchHunkHeader, tagSpacePlus, tagSpaceAtAt, dropPre?_self_append,
    dropPre?, takeDigits_append_space ds1, takeDigits_append_comma ds2,
    takeDigits_append_space ds3, hd1, hd2, hd3, h1, h2, h3]

/-- A line the hunk-header pattern matches starts with the marker
character. -/
theorem matchHunkHeader_shape {line : Chars}
    {t : Nat × Option Nat × Nat × Option Nat × Chars}
    (h : matchHunkHeader line = some t) : ∃ r, line = '@' :: r := by
  cases line with
  | nil =>
    rw [matchHunkHeader_nil] at h
    cases h
  | cons c cs =>
    by_cases hc : c = '@'
    · exact ⟨cs, by rw [hc]⟩
    · rw [matchHunkHeader_cons_ne c cs hc] at h
      cases h

/-- C6: the two count groups of a hunk header default independently: the
opened hunk takes count 1 on exactly the sides whose group is omitted and
the parsed value on the sides whose group is present, and stores the free
text after the second marker trimmed of surrounding whitespace.  Matching is
settled for all three omission shapes — both counts omitted, only the
new-side count omitted (`@@ -a,b +c @@`), and only the old-side count
omitted (`@@ -a +c,d @@`) — and concretely a file whose only hunk header
omits both counts yields old-count = new-count = 1 with trimmed header
"int main", while the one-side-omitted headers default exactly the omitted
side. -/
theorem claim_C6 (fds : List FileDiff) (cf : FileDiff) (ch : Option DiffHunk)
    (isLast : Bool) (line ds1 ds2 ds3 rest : Chars) :
    (∀ (os ns : Nat) (oc nc : Option Nat) (hdr : Chars),
      matchHunkHeader line = some (os, oc, ns, nc, hdr) →
      processLine ⟨fds, some cf, ch⟩ line isLast =
        ⟨fds, some (closeHunk cf ch),
          some { old_start := os, old_count := oc.getD 1,
                 new_start := ns, new_count := nc.getD 1,
                 header := pyStrip hdr, lines := [] }⟩) ∧
    (ds1 ≠ [] → ds2 ≠ [] → ds1.all Char.isDigit = true →
      ds2.all Char.isDigit = true →
      matchHunkHeader
          (tagHunk ++ ds1 ++ tagSpacePlus ++ ds2 ++ tagSpaceAtAt ++ rest) =
        some (digitsVal ds1, none, digitsVal ds2, none, rest)) ∧
    (ds1 ≠ [] → ds2 ≠ [] → ds3 ≠ [] → ds1.all Char.isDigit = true →
      ds2.all Char.isDigit = true → ds3.all Char.isDigit = true →
      matchHunkHeader
          (tagHunk ++ ds1 ++ [','] ++ ds2 ++ tagSpacePlus ++ ds3 ++
            tagSpaceAtAt ++ rest) =
        some (digitsVal ds1, some (digitsVal ds2), digitsVal ds3, none, rest)) ∧
    (ds1 ≠ [] → ds2 ≠ [] → ds3 ≠ [] → ds1.all Char.isDigit = true →
      ds2.all Char.isDigit = true → ds3.all Char.isDigit = true →
      matchHunkHeader
          (tagHunk ++ ds1 ++ tagSpacePlus ++ ds2 ++ [','] ++ ds3 ++
            tagSpaceAtAt ++ rest) =
        some (digitsVal ds1, none, digitsVal ds2, some (digitsVal ds3), rest)) ∧
    parse "diff --git a/m.c b/m.c\n@@ -3 +7 @@  int main \n+x".data =
      [{ file_path := "m.c".data, old_path := some "m.c".data,
         new_path := some "m.c".data, language := some "c".data,
         hunks := [{ old_start := 3, old_count := 1, new_start := 7,
                     new_count := 1, header := "int main".data,
                     lines := [{ line_number := 7, content := ['x'],
                                 change_type := ChangeType.addition,
                                 original_line_number := none }] }],
         additions := 1, deletions := 0 }] ∧
    parse "diff --git a/a b/b\n@@ -3,2 +7 @@\n+x".data =
      [{ file_path := "b".data, old_path := some "a".data,
         new_path := some "b".data,
         hunks := [{ old_start := 3, old_count := 2, new_start := 7,
                     new_count := 1, header := [],
                     lines := [{ line_number := 7, content := ['x'],
                                 change_type := ChangeType.addition,
                                 original_line_number := none }] }],
         additions := 1, deletions := 0 }] ∧
    parse "diff --git a/a b/b\n@@ -3 +7,2 @@\n+x".data =
      [{ file_path := "b".data, old_path := some "a".data,
         new_path := some "b".data,
         hunks := [{ old_start := 3, old_count := 1, new_start := 7,
                     new_count := 2, header := [],
                     lines := [{ line_number := 7, content := ['x'],
                                 change_type := ChangeType.addition,
                                 original_line_number := none }] }],
         additions := 1, deletions := 0 }] := by
  refine ⟨?_, ?_, ?_, ?_, by decide, by decide, by decide⟩
  · intro os ns oc nc hdr hm
    obtain ⟨r, hline⟩ := matchHunkHeader_shape hm
    subst hline
    simp [processLine, handleHunkOrContent, matchFileHeader_cons_at,
      matchNewFileMode_cons_at, matchDeletedFileMode_cons_at,
      matchRenameFrom_cons_at, matchRenameTo_cons_at, hm]
  · exact fun h1 h2 hd1 hd2 => matchHunkHeader_omitted ds1 ds2 rest h1 h2 hd1 hd2
  · exact fun h1 h2 h3 hd1 hd2 hd3 =>
      matchHunkHeader_oldCount ds1 ds2 ds3 rest h1 h2 h3 hd1 hd2 hd3
  · exact fun h1 h2 h3 hd1 hd2 hd3 =>
      matchHunkHeader_newCount ds1 ds2 ds3 rest h1 h2 h3 hd1 hd2 hd3

/-- C6 witness: a concrete header with the old-side count present and the
new-side count omitted opens a hunk with old-count 2 and new-count defaulted
to 1, header trimmed. -/
theorem claim_C6_witness :
    matchHunkHeader "@@ -3,2 +7 @@ hi".data =
      some (3, some 2, 7, none, " hi".data) ∧
    processLine ⟨[], some { file_path := "m.c".data }, none⟩
        "@@ -3,2 +7 @@ hi".data false =
      ⟨[], some { file_path := "m.c".data },
        some { old_start := 3, old_count := 2, new_start := 7, new_count := 1,
               header := "hi".data, lines := [] }⟩ :=
  ⟨by decide,
   (claim_C6 [] { file_path := "m.c".data } none false "@@ -3,2 +7 @@ hi".data
     [] [] [] []).1 3 7 (some 2) none " hi".data (by decide)⟩

/-- C5 witness: a concrete "rename from" line on an open file sets old-path
and is-renamed. -/
theorem claim_C5_witness :
    processLine ⟨[], some { file_path := "x".data }, none⟩
        (tagRenameFrom ++ "a.py".data) true =
      ⟨[], some { file_path := "x".data, old_path := some "a.py".data,
                  is_renamed := true }, none⟩ :=
  (claim_C5 [] { file_path := "x".data } none true "a.py".data).1 (by decide)

end PRReview

namespace PRReview

theorem fdAddCount_append_hunk (f : FileDiff) (h : DiffHunk) :
    fdAddCount { f with hunks := f.hunks ++ [h] } =
      fdAddCount f + hunkAddCount h := by
  simp [fdAddCount]

theorem fdDelCount_append_hunk (f : FileDiff) (h : DiffHunk) :
    fdDelCount { f with hunks := f.hunks ++ [h] } =
      fdDelCount f + hunkDelCount h := by
  simp [fdDelCount]

theorem hunkAddCount_snoc (h : DiffHunk) (al : ChangedLine) :
    hunkAddCount { h with lines := h.lines ++ [al] } =
      hunkAddCount h +
        (if al.change_type = ChangeType.addition then 1 else 0) := by
  cases hal : al.change_type <;>
    simp [hunkAddCount, List.filter_append, List.filter, hal]

theorem hunkDelCount_snoc (h : DiffHunk) (al : ChangedLine) :
    hunkDelCount { h with lines := h.lines ++ [al] } =
      hunkDelCount h +
        (if al.change_type = ChangeType.deletion then 1 else 0) := by
  cases hal : al.change_type <;>
    simp [hunkDelCount, List.filter_append, List.filter, hal]

theorem hunkAddCount_empty (os oc ns nc : Nat) (hdr : Chars) :
    hunkAddCount { old_start := os, old_count := oc, new_start := ns,
                   new_count := nc, header := hdr, lines := [] } = 0 := rfl

theorem hunkDelCount_empty (os oc ns nc : Nat) (hdr : Chars) :
    hunkDelCount { old_start := os, old_count := oc, new_start := ns,
                   new_count := nc, header := hdr, lines := [] } = 0 := rfl

theorem goodFD_closeFile (cf : Option FileDiff) (ch : Option DiffHunk)
    (fds : List FileDiff)
    (h1 : ∀ fd ∈ fds, GoodFD fd)
    (h2 : ∀ f, cf = some f →
      f.additions = fdAddCount f + optAdd ch ∧
      f.deletions = fdDelCount f + optDel ch) :
    ∀ fd ∈ closeFile cf ch fds, GoodFD fd := by
  intro fd hfd
  cases cf with
  | none => exact h1 fd (by simpa [closeFile] using hfd)
  | some f =>
    cases ch with
    | none =>
      have hfd' : fd ∈ fds ∨ fd = f := by simpa [closeFile] using hfd
      rcases hfd' with hh | hh
      · exact h1 fd hh
      · subst hh
        have hf := h2 fd rfl
        exact ⟨by simpa [optAdd] using hf.1, by simpa [optDel] using hf.2⟩
    | some h =>
      have hfd' : fd ∈ fds ∨ fd = { f with hunks := f.hunks ++ [h] } := by
        simpa [closeFile] using hfd
      rcases hfd' with hh | hh
      · exact h1 fd hh
      · subst hh
        have hf := h2 f rfl
        constructor
        · rw [fdAddCount_append_hunk]
          show f.additions = fdAddCount f + hunkAddCount h
          simpa [optAdd] using hf.1
        · rw [fdDelCount_append_hunk]
          show f.deletions = fdDelCount f + hunkDelCount h
          simpa [optDel] using hf.2

theorem GoodState_processLine (st : ParseState) (line : Chars) (b : Bool)
    (hst : GoodState st) : GoodState (processLine st line b) := by
  obtain ⟨h1, h2⟩ := hst
  unfold processLine handleHunkOrContent
  split
  next oldp newp hfh =>
    refine ⟨goodFD_closeFile st.currentFile st.currentHunk st.fileDiffs h1 h2, ?_⟩
    intro f hf
    injection hf with hf
    subst hf
    simp [fdAddCount, fdDelCount, optAdd, optDel]
  next hfh =>
    split
    next hcfile => exact ⟨h1, h2⟩
    next cf hcfile =>
      split
      next hnew =>
        refine ⟨h1, ?_⟩
        intro f hf
        injection hf with hf
        subst hf
        exact h2 cf hcfile
      next hnew =>
        split
        next hdel =>
          refine ⟨h1, ?_⟩
          intro f hf
          injection hf with hf
          subst hf
          exact h2 cf hcfile
        next hdel =>
          split
          next p hfrom =>
            refine ⟨h1, ?_⟩
            intro f hf
            injection hf with hf
            subst hf
            exact h2 cf hcfile
          next hfrom =>
            split
            next p hto =>
              refine ⟨h1, ?_⟩
              intro f hf
              injection hf with hf
              subst hf
              exact h2 cf hcfile
            next hto =>
              split
              next os oc ns nc hdr hhh =>
                refine ⟨h1, ?_⟩
                intro f hf
                injection hf with hf
                subst hf
                have hf2 := h2 cf hcfile
                cases hch : st.currentHunk with
                | none =>
                  rw [hch] at hf2
                  constructor
                  · show cf.additions = _
                    simp [closeHunk, optAdd, hunkAddCount_empty]
                    simpa [optAdd] using hf2.1
                  · show cf.deletions = _
                    simp [closeHunk, optDel, hunkDelCount_empty]
                    simpa [optDel] using hf2.2
                | some hh =>
                  rw [hch] at hf2
                  constructor
                  · simp only [closeHunk, optAdd, hunkAddCount_empty,
                      fdAddCount_append_hunk]
                    show cf.additions = fdAddCount cf + hunkAddCount hh + 0
                    simp only [optAdd] at hf2
                    omega
                  · simp only [closeHunk, optDel, hunkDelCount_empty,
                      fdDelCount_append_hunk]
                    show cf.deletions = fdDelCount cf + hunkDelCount hh + 0
                    simp only [optDel] at hf2
                    omega
              next hhh =>
                split
                next hch => exact ⟨h1, h2⟩
                next h hch =>
                  rw [hch] at h2
                  split
                  next hadd =>
                    refine ⟨h1, ?_⟩
                    intro f hf
                    have hff : some ({ cf with additions := cf.additions + 1 } :
                        FileDiff) = some f := hf
                    injection hff with hff
                    subst hff
                    have hf2 := h2 cf hcfile
                    simp only [optAdd, optDel, fdAddCount, fdDelCount] at hf2
                    constructor <;>
                      simp [optAdd, optDel, hunkAddCount_snoc, hunkDelCount_snoc,
                        fdAddCount, fdDelCount] <;> omega
                  next hadd =>
                    split
                    next hdel2 =>
                      refine ⟨h1, ?_⟩
                      intro f hf
                      have hff : some ({ cf with deletions := cf.deletions + 1 } :
                          FileDiff) = some f := hf
                      injection hff with hff
                      subst hff
                      have hf2 := h2 cf hcfile
                      simp only [optAdd, optDel, fdAddCount, fdDelCount] at hf2
                      constructor <;>
                        simp [optAdd, optDel, hunkAddCount_snoc, hunkDelCount_snoc,
                          fdAddCount, fdDelCount] <;> omega
                    next hdel2 =>
                      split
                      next hctx =>
                        refine ⟨h1, ?_⟩
                        intro f hf
                        have hff : st.currentFile = some f := hf
                        rw [hcfile] at hff
                        injection hff with hff
                        subst hff
                        have hf2 := h2 cf hcfile
                        simp only [optAdd, optDel, fdAddCount, fdDelCount] at hf2
                        constructor <;>
                          simp [optAdd, optDel, hunkAddCount_snoc, hunkDelCount_snoc,
                            fdAddCount, fdDelCount] <;> omega
                      next hctx =>
                        refine ⟨h1, ?_⟩
                        rw [hch]
                        exact h2

end PRReview

namespace PRReview

theorem GoodState_parseLines (ls : List Chars) (st : ParseState)
    (hst : GoodState st) : GoodState (parseLines st ls) := by
  induction ls generalizing st with
  | nil => exact hst
  | cons l rest ih => exact ih _ (GoodState_processLine st l _ hst)

/-- C3: in every FileDiff returned by parse, the running additions counter
equals the number of lines classified addition across all of that file's
hunks, and the deletions counter equals the number classified deletion. -/
theorem claim_C3 (text : Chars) :
    ∀ fd ∈ parse text,
      fd.additions = fdAddCount fd ∧ fd.deletions = fdDelCount fd := by
  intro fd hfd
  unfold parse at hfd
  by_cases hs : pyStrip text = []
  · rw [if_pos hs] at hfd
    simp at hfd
  · rw [if_neg hs] at hfd
    have hgs : GoodState (parseLines ParseState.start (splitOnNewline text)) := by
      apply GoodState_parseLines
      constructor
      · intro fd h
        simp [ParseState.start] at h
      · intro cf h
        simp [ParseState.start] at h
    exact goodFD_closeFile _ _ _ hgs.1 hgs.2 fd hfd

/-- C3 witness: the counters of the file parsed from the demonstration diff
match its classified lines. -/
theorem claim_C3_witness :
    demoFDC3 ∈ parse demoDiffC3 ∧
    demoFDC3.additions = fdAddCount demoFDC3 ∧
    demoFDC3.deletions = fdDelCount demoFDC3 :=
  ⟨by decide, claim_C3 demoDiffC3 demoFDC3 (by decide)⟩

end PRReview

namespace PRReview

/-- C8: deleted files and files with an empty added-line list are never
dispatched to any analyzer, yet files-reviewed counts every non-deleted
parsed file (including addition-free ones) and the returned totals sum the
addition/deletion counters of every parsed file, deleted and addition-free
ones included. -/
theorem claim_C8 (agents : List Agent) (text : Chars) :
    (∀ fd ∈ parse text,
      (fd.is_deleted_file = true ∨ (prepare_code_context fd).additions = []) →
        fileResults agents fd = []) ∧
    (review_diff agents text).files_reviewed =
      (parse text).countP (fun f => !f.is_deleted_file) ∧
    (review_diff agents text).total_additions =
      ((parse text).map (fun f => f.additions)).sum ∧
    (review_diff agents text).total_deletions =
      ((parse text).map (fun f => f.deletions)).sum := by
  refine ⟨?_, ?_, ?_, ?_⟩
  · rintro fd hmem (hdel | hadd)
    · simp [fileResults, hdel]
    · simp [fileResults, hadd]
  all_goals
    unfold review_diff
    by_cases hp : parse text = [] <;>
      simp [hp, List.countP_eq_length_filter]

/-- C8 witness: a deleted file is not dispatched and the counts still
include it. -/
theorem claim_C8_witness :
    demoFDdel ∈ parse demoDeletedDiff ∧
    fileResults [agentA] demoFDdel = [] ∧
    (review_diff [agentA] demoDeletedDiff).files_reviewed =
      (parse demoDeletedDiff).countP (fun f => !f.is_deleted_file) ∧
    (review_diff [agentA] demoDeletedDiff).total_deletions =
      ((parse demoDeletedDiff).map (fun f => f.deletions)).sum :=
  ⟨by decide,
   (claim_C8 [agentA] demoDeletedDiff).1 demoFDdel (by decide)
     (Or.inl (by decide)),
   (claim_C8 [agentA] demoDeletedDiff).2.1,
   (claim_C8 [agentA] demoDeletedDiff).2.2.2⟩

/-- C9: an analyzer whose invocation always raises is recorded, for every
dispatched file, as an AgentResult carrying the error string and an empty
finding list; the merged findings are exactly those the remaining analyzers
produce (the failure contributes nothing and alters nothing), and the review
function remains total. -/
theorem claim_C9 (a1 a2 : List Agent) (bad : Agent) (e : String)
    (hbad : ∀ ctx, bad.run ctx = Except.error e) :
    (∀ ctx, run_agent bad ctx =
      { agent_name := bad.name, findings := [], execution_time_seconds := 0,
        error := some e }) ∧
    (∀ fds : List FileDiff,
      seqAllFindings (a1 ++ bad :: a2) fds = seqAllFindings (a1 ++ a2) fds) ∧
    (∀ (fds : List FileDiff) (fd : FileDiff), fd ∈ fds →
      fd.is_deleted_file = false → (prepare_code_context fd).additions ≠ [] →
      ({ agent_name := bad.name, findings := [], execution_time_seconds := 0,
         error := some e } : AgentResult) ∈
        seqAgentResults (a1 ++ bad :: a2) fds) := by
  have hrun : ∀ ctx, run_agent bad ctx =
      { agent_name := bad.name, findings := [], execution_time_seconds := 0,
        error := some e } := by
    intro ctx
    simp [run_agent, hbad ctx]
  have hfile : ∀ fd, collectFindings (fileResults (a1 ++ bad :: a2) fd) =
      collectFindings (fileResults (a1 ++ a2) fd) := by
    intro fd
    unfold fileResults
    by_cases hd : fd.is_deleted_file = true
    · simp [hd]
    · by_cases ha : (prepare_code_context fd).additions = []
      · simp [hd, ha]
      · simp [hd, ha, collectFindings, hrun]
  refine ⟨hrun, ?_, ?_⟩
  · intro fds
    induction fds with
    | nil => rfl
    | cons fd rest ih =>
      have happ : ∀ ags : List Agent,
          seqAllFindings ags (fd :: rest) =
            collectFindings (fileResults ags fd) ++ seqAllFindings ags rest := by
        intro ags
        simp [seqAllFindings, seqAgentResults, collectFindings,
          List.flatMap_append]
      rw [happ, happ, hfile fd, ih]
  · intro fds fd hmem hdel hadds
    unfold seqAgentResults
    apply List.mem_flatMap.mpr
    refine ⟨fd, hmem, ?_⟩
    have he : fileResults (a1 ++ bad :: a2) fd =
        (a1 ++ bad :: a2).map (fun a => run_agent a (prepare_code_context fd)) := by
      simp [fileResults, hdel, hadds]
    rw [he]
    exact List.mem_map.mpr ⟨bad, by simp, hrun _⟩

/-- C9 witness: a concrete always-raising analyzer yields the error result,
leaves the well-behaved analyzer's findings untouched, and its error record
appears among the collected results. -/
theorem claim_C9_witness :
    run_agent badAgent ctxC10 =
      { agent_name := "bad", findings := [], execution_time_seconds := 0,
        error := some "boom" } ∧
    seqAllFindings [agentA, badAgent] [demoFDC3] =
      seqAllFindings [agentA] [demoFDC3] ∧
    ({ agent_name := "bad", findings := [], execution_time_seconds := 0,
       error := some "boom" } : AgentResult) ∈
      seqAgentResults [agentA, badAgent] [demoFDC3] :=
  ⟨(claim_C9 [agentA] [] badAgent "boom" (fun _ => rfl)).1 ctxC10,
   (claim_C9 [agentA] [] badAgent "boom" (fun _ => rfl)).2.1 [demoFDC3],
   (claim_C9 [agentA] [] badAgent "boom" (fun _ => rfl)).2.2 [demoFDC3] demoFDC3
     (by simp) (by decide) (by decide)⟩

theorem rankLE_trans : ∀ a b c : Finding,
    decide (rankOf a ≤ rankOf b) = true → decide (rankOf b ≤ rankOf c) = true →
    decide (rankOf a ≤ rankOf c) = true := by
  intro a b c hab hbc
  simp only [decide_eq_true_eq] at *
  omega

theorem rankLE_total : ∀ a b : Finding,
    (decide (rankOf a ≤ rankOf b) || decide (rankOf b ≤ rankOf a)) = true := by
  intro a b
  simp only [Bool.or_eq_true, decide_eq_true_eq]
  omega

/-- Permuted inputs sort to the same sequence of severity ranks. -/
theorem sortFindings_rank_eq_of_perm {l1 l2 : List Finding} (h : l1.Perm l2) :
    (sortFindings l1).map rankOf = (sortFindings l2).map rankOf := by
  have hs1 : List.Pairwise (fun a b : Nat => a ≤ b)
      ((sortFindings l1).map rankOf) :=
    List.Pairwise.map rankOf (fun a b hab => by simpa using hab)
      (List.sorted_mergeSort rankLE_trans rankLE_total l1)
  have hs2 : List.Pairwise (fun a b : Nat => a ≤ b)
      ((sortFindings l2).map rankOf) :=
    List.Pairwise.map rankOf (fun a b hab => by simpa using hab)
      (List.sorted_mergeSort rankLE_trans rankLE_total l2)
  have hperm : ((sortFindings l1).map rankOf).Perm
      ((sortFindings l2).map rankOf) :=
    ((List.mergeSort_perm l1 _).trans
      (h.trans (List.mergeSort_perm l2 _).symm)).map rankOf
  exact List.eq_of_perm_of_sorted hperm hs1 hs2

/-- C10: any completion-order collection of the per-file concurrent results
(modelled as a per-file permutation of the registration-order result lists)
merges to the same finding set as sequential dispatch — membership is
identical — and after the severity sort the severity-ranked order is the
same. -/
theorem claim_C10 (agents : List Agent) (fds : List FileDiff)
    (parRes : List (List AgentResult))
    (hsched : List.Forall₂ (fun c s => c.Perm s) parRes
      (fds.map (fileResults agents))) :
    (∀ f : Finding, f ∈ collectFindings parRes.flatten ↔
      f ∈ seqAllFindings agents fds) ∧
    (sortFindings (collectFindings parRes.flatten)).map rankOf =
      (sortFindings (seqAllFindings agents fds)).map rankOf := by
  have hgen : ∀ xs ys : List (List AgentResult),
      List.Forall₂ (fun c s => c.Perm s) xs ys → xs.flatten.Perm ys.flatten := by
    intro xs ys h
    induction h with
    | nil => exact List.Perm.refl _
    | cons h _ ih => exact h.append ih
  have hperm0 : parRes.flatten.Perm (fds.map (fileResults agents)).flatten :=
    hgen _ _ hsched
  have hseq : seqAgentResults agents fds = (fds.map (fileResults agents)).flatten := by
    simp [seqAgentResults, List.flatMap_def]
  have hpermF : (collectFindings parRes.flatten).Perm
      (seqAllFindings agents fds) := by
    unfold seqAllFindings
    rw [hseq]
    simp only [collectFindings, List.flatMap_def]
    exact (hperm0.map _).flatten
  exact ⟨fun f => hpermF.mem_iff, sortFindings_rank_eq_of_perm hpermF⟩

/-- C10 witness: collecting the two analyzers' results for the demo file in
reversed completion order yields the same finding set and the same
severity-ranked order as sequential dispatch. -/
theorem claim_C10_witness :
    (demoFindingA ∈
        collectFindings ([[resB, resA]] : List (List AgentResult)).flatten ↔
      demoFindingA ∈ seqAllFindings [agentA, agentB] [demoFDC3]) ∧
    (sortFindings (collectFindings
        ([[resB, resA]] : List (List AgentResult)).flatten)).map rankOf =
      (sortFindings (seqAllFindings [agentA, agentB] [demoFDC3])).map rankOf := by
  have he : fileResults [agentA, agentB] demoFDC3 = [resA, resB] := by decide
  have hsched : List.Forall₂ (fun c s => c.Perm s) [[resB, resA]]
      ([demoFDC3].map (fileResults [agentA, agentB])) := by
    refine List.Forall₂.cons ?_ List.Forall₂.nil
    show List.Perm [resB, resA] (fileResults [agentA, agentB] demoFDC3)
    rw [he]
    exact List.Perm.swap resA resB []
  exact ⟨(claim_C10 [agentA, agentB] [demoFDC3] [[resB, resA]] hsched).1
      demoFindingA,
    (claim_C10 [agentA, agentB] [demoFDC3] [[resB, resA]] hsched).2⟩

end PRReview
